import Mathlib

/-!
Verification of the FocusFlow dashboard's Task State & Analytics Engine
(`src/todoHtml3/saas-dashboard`): a shallow embedding of the reducer in
`src/hooks/useDashboardState.ts`, the pure analytics functions in
`src/lib/analytics.ts`, and the persistence gateway in `src/lib/storage.ts`,
together with theorems settling the spec's claims about them.

Modelling conventions:
* JavaScript strings are Lean `String`s; `s.slice(0, 10)` is `s.take 10`.
* Nullable / optional JS values are `Option`s (`null` / `undefined` ↦ `none`).
* `new Date().toISOString()` and `uuid()` are nondeterministic inputs, so the
  reducer takes the fresh timestamp `now` and fresh id `freshId` as explicit
  arguments; the analytics take a function `dayKeys : Nat → String` where
  `dayKeys i` stands for `toDateKey(today minus i days)` (the engine never
  inspects the date strings other than by equality).
* JSON values are an inductive `Json` type; the stored blob is an
  `Option Json` (`none` = missing key or text that fails `JSON.parse`).
  `JSON.parse (JSON.stringify v)` is the identity on JSON-safe values, so
  save/load round-trips are stated at the `Json` level, which is exactly
  deep (structural) equality of the JS values involved.
* JS numbers that the program treats as integers are `Int` / `Nat`; the
  division in `completionRate` is rational division (`ℚ`), with the
  division-by-zero guard translated as in the source.
-/

namespace FocusFlow

/-! ## Domain model (`src/lib/types.ts`) -/

inductive TaskStatus where
  | todo
  | inProgress
  | done
  | archived
deriving DecidableEq, Repr

inductive TaskPriority where
  | low
  | medium
  | high
deriving DecidableEq, Repr

structure Task where
  id : String
  title : String
  description : String
  status : TaskStatus
  priority : TaskPriority
  projectId : Option String
  dueDate : Option String
  createdAt : String
  updatedAt : String
  completedAt : Option String
  isPinned : Bool
  tags : List String
deriving DecidableEq, Repr

structure Project where
  id : String
  name : String
  color : String
  createdAt : String
deriving DecidableEq, Repr

structure CompletionEntry where
  date : String
  count : Nat
deriving DecidableEq, Repr

structure AppSettings where
  defaultProjectId : Option String
  confirmBeforeDelete : Bool
  enableSounds : Bool
  showOnboarding : Bool
deriving DecidableEq, Repr

structure PersistedState where
  version : Int
  tasks : List Task
  projects : List Project
  settings : AppSettings
  completionHistory : List CompletionEntry
deriving DecidableEq, Repr

/-- The reducer's `State = PersistedState & { lastDeletedTask?: Task | null }`
(`useDashboardState.ts`, lines 19–22): the persisted fields plus the volatile
one-slot undo buffer. -/
structure State where
  version : Int
  tasks : List Task
  projects : List Project
  settings : AppSettings
  completionHistory : List CompletionEntry
  lastDeletedTask : Option Task
deriving DecidableEq, Repr

/-! ## JavaScript string primitives

The engine uses `title.trim()` and the lexicographic string comparison
`a < b` of the sort comparator. Both are modelled structurally on the
character list so that they compute: `jsTrim` strips leading and trailing
whitespace, `strLtB` is the code-unit lexicographic order (identical to the
code-point order on the ASCII day keys the program compares). -/

/-- JS `String.prototype.trim`. -/
def jsTrim (s : String) : String :=
  ⟨((s.data.dropWhile Char.isWhitespace).reverse.dropWhile
      Char.isWhitespace).reverse⟩

/-- JS `a < b` on the underlying character sequences. -/
def charsLt : List Char → List Char → Bool
  | [], [] => false
  | [], _ :: _ => true
  | _ :: _, [] => false
  | a :: as, b :: bs =>
      if a.toNat < b.toNat then true
      else if b.toNat < a.toNat then false
      else charsLt as bs

/-- JS `a < b` on strings. -/
def strLtB (a b : String) : Bool :=
  charsLt a.data b.data

/-! ## Analytics (`src/lib/analytics.ts`) -/

/-- The calendar-day key a task contributes to the completion aggregation:
`none` when the loop body does `if (!task.completedAt) continue;` (both the
missing value and the falsy empty string are skipped), otherwise
`task.completedAt.slice(0, 10)`. -/
def dayKeyOfCompleted (t : Task) : Option String :=
  match t.completedAt with
  | none => none
  | some s => if s = "" then none else some (s.take 10)

/-- One step of `byDate.set(dateKey, (byDate.get(dateKey) ?? 0) + 1)` on the
insertion-ordered map, represented as an association list: an existing key is
incremented in place, a new key is appended at the end. -/
def bump : List (String × Nat) → String → List (String × Nat)
  | [], k => [(k, 1)]
  | (k', c) :: rest, k =>
      if k' = k then (k', c + 1) :: rest else (k', c) :: bump rest k

/-- One iteration of the `for (const task of tasks)` loop of
`computeCompletionHistory`: skip tasks without a (truthy) `completedAt`,
bump the day bucket otherwise. -/
def histStep (m : List (String × Nat)) (t : Task) : List (String × Nat) :=
  match dayKeyOfCompleted t with
  | none => m
  | some k => bump m k

/-- The contents of the `byDate` map after the loop. -/
def completionPairs (tasks : List Task) : List (String × Nat) :=
  tasks.foldl histStep []

/-- `computeCompletionHistory` (`analytics.ts`, lines 901–913): group completed
tasks by day, sort the entries ascending by date key, and package them as
`CompletionEntry` records. -/
def computeCompletionHistory (tasks : List Task) : List CompletionEntry :=
  ((completionPairs tasks).insertionSort (fun a b => strLtB a.1 b.1 = true)).map
    (fun p => { date := p.1, count := p.2 })

/-- The fallback path of `tasksCompletedToday`:
`tasks.filter((t) => t.completedAt && t.completedAt.slice(0, 10) === key).length`. -/
def countCompletedOn (tasks : List Task) (k : String) : Nat :=
  (tasks.filter (fun t => decide (dayKeyOfCompleted t = some k))).length

/-- The per-day test of the streak loop:
`historySet.has(key) || tasks.some((t) => t.completedAt && t.completedAt.slice(0, 10) === key)`
at the key of the day `off` days before today. -/
def hasCompletionAt (dayKeys : Nat → String) (history : List CompletionEntry)
    (tasks : List Task) (off : Nat) : Bool :=
  (history.map CompletionEntry.date).contains (dayKeys off) ||
    tasks.any (fun t => decide (dayKeyOfCompleted t = some (dayKeys off)))

/-- The `for (let offset = 0; offset < 365; offset++) { ... break }` streak
loop: counts consecutive `true`s of `f` starting at `off`, with `fuel`
iterations remaining. -/
def streakFrom (f : Nat → Bool) : Nat → Nat → Nat
  | _, 0 => 0
  | off, fuel + 1 => if f off then streakFrom f (off + 1) fuel + 1 else 0

structure AnalyticsSummary where
  totalTasks : Nat
  completedTasks : Nat
  activeTasks : Nat
  completionRate : ℚ
  streakDays : Nat
  tasksCompletedToday : Nat
deriving DecidableEq, Repr

/-- `computeAnalytics` (`analytics.ts`, lines 915–959). `dayKeys i` stands for
`toDateKey(today - i days)`; `dayKeys 0` is `todayKey`. -/
def computeAnalytics (dayKeys : Nat → String) (tasks : List Task)
    (history : List CompletionEntry) : AnalyticsSummary :=
  let totalTasks := tasks.length
  let completedTasks := (tasks.filter (fun t => decide (t.status = .done))).length
  let activeTasks :=
    (tasks.filter (fun t =>
      decide (t.status = .todo ∨ t.status = .inProgress))).length
  let completionRate : ℚ :=
    if totalTasks = 0 then 0 else (completedTasks : ℚ) / (totalTasks : ℚ)
  let todayKey := dayKeys 0
  let tasksCompletedToday :=
    match history.find? (fun e => decide (e.date = todayKey)) with
    | some e => e.count
    | none => countCompletedOn tasks todayKey
  let streakDays := streakFrom (hasCompletionAt dayKeys history tasks) 0 365
  { totalTasks := totalTasks
    completedTasks := completedTasks
    activeTasks := activeTasks
    completionRate := completionRate
    streakDays := streakDays
    tasksCompletedToday := tasksCompletedToday }

/-! ## State engine (`src/hooks/useDashboardState.ts`) -/

/-- `CreateTaskInput` (`useDashboardState.ts`, lines 24–30); every optional /
nullable field is an `Option`. -/
structure CreateTaskInput where
  title : String
  description : Option String
  projectId : Option String
  priority : Option TaskPriority
  dueDate : Option String
deriving DecidableEq, Repr

/-- `Partial<Task>` as used by the `update-task` action: `none` = field absent
from the patch. Nullable task fields get an inner `Option` so a patch can
explicitly set them to `null` (as `handleComplete` does for `completedAt`).
`updatedAt` is omitted: `{ ...task, ...patch, updatedAt: now }` always
overwrites it with `now`. -/
structure TaskPatch where
  id : Option String
  title : Option String
  description : Option String
  status : Option TaskStatus
  priority : Option TaskPriority
  projectId : Option (Option String)
  dueDate : Option (Option String)
  createdAt : Option String
  completedAt : Option (Option String)
  isPinned : Option Bool
  tags : Option (List String)
deriving DecidableEq, Repr

/-- The all-absent patch `{}`. -/
def TaskPatch.empty : TaskPatch :=
  { id := none, title := none, description := none, status := none
    priority := none, projectId := none, dueDate := none, createdAt := none
    completedAt := none, isPinned := none, tags := none }

/-- `Partial<AppSettings>` for the `update-settings` action. -/
structure SettingsPatch where
  defaultProjectId : Option (Option String)
  confirmBeforeDelete : Option Bool
  enableSounds : Option Bool
  showOnboarding : Option Bool
deriving DecidableEq, Repr

/-- The reducer's closed action set (`useDashboardState.ts`, lines 32–40). -/
inductive Action where
  | hydrate (payload : PersistedState)
  | createTask (input : CreateTaskInput)
  | updateTask (id : String) (patch : TaskPatch)
  | deleteTask (id : String)
  | bulkUpdateStatus (ids : List String) (status : TaskStatus)
  | restoreLastDeleted
  | updateSettings (patch : SettingsPatch)
  | createProject (name : String) (color : String)
deriving DecidableEq, Repr

/-- The task record built by the `create-task` case (lines 54–67). The JS
`action.payload.description?.trim() || ""` collapses a missing description and
a whitespace-only description alike to `""`; `?? ` chains become `Option`
fallbacks. -/
def createdTask (now freshId : String) (state : State)
    (input : CreateTaskInput) : Task :=
  { id := freshId
    title := jsTrim input.title
    description := jsTrim (input.description.getD "")
    status := .todo
    priority := input.priority.getD .medium
    projectId := input.projectId <|> state.settings.defaultProjectId
    dueDate := input.dueDate
    createdAt := now
    updatedAt := now
    completedAt := none
    isPinned := false
    tags := [] }

/-- `{ ...task, ...action.payload.patch, updatedAt: now }` (lines 81–85). -/
def applyPatch (now : String) (t : Task) (p : TaskPatch) : Task :=
  { id := p.id.getD t.id
    title := p.title.getD t.title
    description := p.description.getD t.description
    status := p.status.getD t.status
    priority := p.priority.getD t.priority
    projectId := p.projectId.getD t.projectId
    dueDate := p.dueDate.getD t.dueDate
    createdAt := p.createdAt.getD t.createdAt
    updatedAt := now
    completedAt := p.completedAt.getD t.completedAt
    isPinned := p.isPinned.getD t.isPinned
    tags := p.tags.getD t.tags }

/-- The per-task body of the `bulk-update-status` map (lines 112–122):
untouched when the id is not selected; otherwise status is replaced,
`completedAt` becomes `task.completedAt ?? now` when the new status is
`done` and is left as-is otherwise, and `updatedAt` is refreshed. -/
def bulkOne (ids : List String) (status : TaskStatus) (now : String)
    (t : Task) : Task :=
  if ids.contains t.id then
    { t with
      status := status
      completedAt :=
        if status = .done then some (t.completedAt.getD now) else t.completedAt
      updatedAt := now }
  else t

/-- The reducer (`useDashboardState.ts`, lines 47–170). `now` stands for the
`new Date().toISOString()` computed inside a case and `freshId` for `uuid()`. -/
def reducer (now freshId : String) (state : State) (action : Action) : State :=
  match action with
  | .hydrate payload =>
      { version := payload.version
        tasks := payload.tasks
        projects := payload.projects
        settings := payload.settings
        completionHistory := payload.completionHistory
        lastDeletedTask := none }
  | .createTask input =>
      let task := createdTask now freshId state input
      let tasks := task :: state.tasks
      { state with
        tasks := tasks
        completionHistory := computeCompletionHistory tasks }
  | .updateTask id patch =>
      let tasks := state.tasks.map
        (fun t => if t.id = id then applyPatch now t patch else t)
      { state with
        tasks := tasks
        completionHistory := computeCompletionHistory tasks }
  | .deleteTask id =>
      let task := state.tasks.find? (fun t => decide (t.id = id))
      let tasks := state.tasks.filter (fun t => decide (t.id ≠ id))
      { state with
        tasks := tasks
        completionHistory := computeCompletionHistory tasks
        lastDeletedTask := task }
  | .bulkUpdateStatus ids status =>
      let tasks := state.tasks.map (bulkOne ids status now)
      { state with
        tasks := tasks
        completionHistory := computeCompletionHistory tasks }
  | .restoreLastDeleted =>
      match state.lastDeletedTask with
      | none => state
      | some t =>
          let tasks := t :: state.tasks
          { state with
            tasks := tasks
            completionHistory := computeCompletionHistory tasks
            lastDeletedTask := none }
  | .updateSettings patch =>
      { state with
        settings :=
          { defaultProjectId :=
              patch.defaultProjectId.getD state.settings.defaultProjectId
            confirmBeforeDelete :=
              patch.confirmBeforeDelete.getD state.settings.confirmBeforeDelete
            enableSounds := patch.enableSounds.getD state.settings.enableSounds
            showOnboarding :=
              patch.showOnboarding.getD state.settings.showOnboarding } }
  | .createProject name color =>
      { state with
        projects := state.projects ++
          [{ id := freshId, name := jsTrim name, color := color,
             createdAt := now }] }

/-! ## Persistence gateway (`src/lib/storage.ts`)

The stored blob is modelled as an `Option Json`: `none` covers a missing
storage key and text that `JSON.parse` rejects (such as `"{not json"`);
`some v` is the parsed JSON value. `JSON.parse ∘ JSON.stringify` is the
identity on JSON values, so serialisation is modelled at the `Json` level. -/

inductive Json where
  | null
  | bool (b : Bool)
  | num (n : Int)
  | str (s : String)
  | arr (elems : List Json)
  | obj (fields : List (String × Json))

/-- `isObject` (`storage.ts`, lines 971–973):
`typeof value === "object" && value !== null`. In JavaScript arrays also have
`typeof` `"object"`, so they pass this check; `null` is excluded explicitly. -/
def Json.isObject : Json → Bool
  | .obj _ => true
  | .arr _ => true
  | _ => false

/-- Property access `value.k` on a parsed JSON value: a named field of an
object, `undefined` (`none`) otherwise — in particular on arrays, whose only
own properties after `JSON.parse` are numeric indices. -/
def Json.getProp (j : Json) (k : String) : Option Json :=
  match j with
  | .obj fields => (fields.find? (fun p => decide (p.1 = k))).map Prod.snd
  | _ => none

/-- `coerceArray` (lines 976–978): `Array.isArray(value) ? value : []`. -/
def coerceArray (v : Option Json) : List Json :=
  match v with
  | some (.arr xs) => xs
  | _ => []

/-- The settings object `coerceSettings` falls back to when the stored value
is not an object (lines 981–988), which also equals its field-by-field
defaults. -/
def defaultSettings : AppSettings :=
  { confirmBeforeDelete := true
    enableSounds := false
    showOnboarding := true
    defaultProjectId := none }

/-- `coerceSettings` (`storage.ts`, lines 980–1000): whole-object default when
not an object, otherwise per-field coercion (`typeof` checks on the booleans;
`defaultProjectId` kept when a string or `null`, else `null`). -/
def coerceSettings (v : Option Json) : AppSettings :=
  match v with
  | none => defaultSettings
  | some j =>
      if j.isObject then
        { confirmBeforeDelete :=
            match j.getProp "confirmBeforeDelete" with
            | some (.bool b) => b
            | _ => true
          enableSounds :=
            match j.getProp "enableSounds" with
            | some (.bool b) => b
            | _ => false
          showOnboarding :=
            match j.getProp "showOnboarding" with
            | some (.bool b) => b
            | _ => true
          defaultProjectId :=
            match j.getProp "defaultProjectId" with
            | some (.str s) => some s
            | _ => none }
      else defaultSettings

def CURRENT_VERSION : Int := 1

/-- `getInitialState` (`storage.ts`, lines 1002–1043), with `now` standing for
`new Date().toISOString()`. -/
def getInitialState (now : String) : PersistedState :=
  let defaultProject : Project :=
    { id := "inbox", name := "Inbox", color := "sky", createdAt := now }
  let sampleTask : Task :=
    { id := "welcome-task"
      title := "Welcome to FocusFlow"
      description := "Edit or complete this task to get a feel for the workflow."
      status := .todo
      priority := .medium
      projectId := some defaultProject.id
      dueDate := none
      createdAt := now
      updatedAt := now
      completedAt := none
      isPinned := true
      tags := ["getting-started"] }
  { version := CURRENT_VERSION
    tasks := [sampleTask]
    projects := [defaultProject]
    settings :=
      { confirmBeforeDelete := true
        enableSounds := false
        showOnboarding := true
        defaultProjectId := some defaultProject.id }
    completionHistory := [] }

/-- The shape `loadState` returns: the dynamically-checked fields are typed
(`version`, `settings`), while the three collections stay as the raw parsed
JSON elements, exactly as the unchecked `coerceArray<T>` casts do. -/
structure PersistedStateJ where
  version : Int
  tasks : List Json
  projects : List Json
  settings : AppSettings
  completionHistory : List Json

/-- `JSON.stringify` image of an optional string field (`null` when absent). -/
def Json.ofOptStr : Option String → Json
  | none => .null
  | some s => .str s

def encodeStatus : TaskStatus → Json
  | .todo => .str "todo"
  | .inProgress => .str "in-progress"
  | .done => .str "done"
  | .archived => .str "archived"

def encodePriority : TaskPriority → Json
  | .low => .str "low"
  | .medium => .str "medium"
  | .high => .str "high"

/-- `JSON.stringify` image of a reducer-shaped task record, keys in the
creation order of the `create-task` case. -/
def encodeTask (t : Task) : Json :=
  .obj [("id", .str t.id), ("title", .str t.title),
        ("description", .str t.description), ("status", encodeStatus t.status),
        ("priority", encodePriority t.priority),
        ("projectId", .ofOptStr t.projectId), ("dueDate", .ofOptStr t.dueDate),
        ("createdAt", .str t.createdAt), ("updatedAt", .str t.updatedAt),
        ("completedAt", .ofOptStr t.completedAt),
        ("isPinned", .bool t.isPinned),
        ("tags", .arr (t.tags.map Json.str))]

def encodeProject (p : Project) : Json :=
  .obj [("id", .str p.id), ("name", .str p.name), ("color", .str p.color),
        ("createdAt", .str p.createdAt)]

def encodeEntry (e : CompletionEntry) : Json :=
  .obj [("date", .str e.date), ("count", .num (e.count : Int))]

def encodeSettings (s : AppSettings) : Json :=
  .obj [("confirmBeforeDelete", .bool s.confirmBeforeDelete),
        ("enableSounds", .bool s.enableSounds),
        ("showOnboarding", .bool s.showOnboarding),
        ("defaultProjectId", .ofOptStr s.defaultProjectId)]

/-- The `PersistedStateJ` image of a fully-typed `PersistedState`: its tasks,
projects and history entries rendered as the JSON values `JSON.stringify`
produces for them. -/
def toJ (p : PersistedState) : PersistedStateJ :=
  { version := p.version
    tasks := p.tasks.map encodeTask
    projects := p.projects.map encodeProject
    settings := p.settings
    completionHistory := p.completionHistory.map encodeEntry }

/-- `saveState` (`storage.ts`, lines 1083–1093) restricted to a value of the
declared parameter type `PersistedState`: the `JSON.stringify` image of the
five persisted fields. -/
def saveStateJ (s : PersistedStateJ) : Json :=
  .obj [("version", .num s.version),
        ("tasks", .arr s.tasks),
        ("projects", .arr s.projects),
        ("settings", encodeSettings s.settings),
        ("completionHistory", .arr s.completionHistory)]

/-- `loadState` (`storage.ts`, lines 1045–1081). `stored = none` covers the
missing key and unparseable text (the `catch` branch); the
`Number.isFinite` check on `version` is always true in the `Int` model. -/
def loadState (now : String) (stored : Option Json) : PersistedStateJ :=
  match stored with
  | none => toJ (getInitialState now)
  | some parsed =>
      if parsed.isObject then
        { version :=
            match parsed.getProp "version" with
            | some (.num n) => n
            | _ => CURRENT_VERSION
          tasks := coerceArray (parsed.getProp "tasks")
          projects := coerceArray (parsed.getProp "projects")
          settings := coerceSettings (parsed.getProp "settings")
          completionHistory := coerceArray (parsed.getProp "completionHistory") }
      else toJ (getInitialState now)

/-- What the persist effect `useEffect(() => { saveState(state); }, [state])`
(`useDashboardState.ts`, lines 189–191) actually writes: `JSON.stringify`
serialises every own property of the full reducer `State` it is handed,
including `lastDeletedTask` (structural typing lets the extra property through
`saveState`'s `PersistedState` parameter type). -/
def encodeStateJson (s : State) : Json :=
  .obj [("version", .num s.version),
        ("tasks", .arr (s.tasks.map encodeTask)),
        ("projects", .arr (s.projects.map encodeProject)),
        ("settings", encodeSettings s.settings),
        ("completionHistory", .arr (s.completionHistory.map encodeEntry)),
        ("lastDeletedTask",
          match s.lastDeletedTask with
          | none => .null
          | some t => encodeTask t)]

/-- The top-level keys of a serialised blob. -/
def Json.topKeys : Json → List String
  | .obj fields => fields.map Prod.fst
  | _ => []

/-! ## Concrete fixtures used by witnesses and counterexamples -/

/-- A completed task: `status = done` with `completedAt` stamped. -/
def wDoneTask : Task :=
  { id := "t1", title := "Ship it", description := "", status := .done,
    priority := .medium, projectId := none, dueDate := none,
    createdAt := "2024-01-01T00:00:00.000Z",
    updatedAt := "2024-01-01T10:00:00.000Z",
    completedAt := some "2024-01-01T10:00:00.000Z", isPinned := false,
    tags := [] }

/-- A never-completed task. -/
def wTodoTask : Task :=
  { id := "a1", title := "Water plants", description := "", status := .todo,
    priority := .low, projectId := none, dueDate := none,
    createdAt := "2024-01-01T00:00:00.000Z",
    updatedAt := "2024-01-01T00:00:00.000Z",
    completedAt := none, isPinned := false, tags := [] }

/-- A state with no tasks and an empty undo slot. -/
def emptyState : State :=
  { version := 1, tasks := [], projects := [], settings := defaultSettings,
    completionHistory := [], lastDeletedTask := none }

/-- A state holding one done task, with a consistent derived history. -/
def invariantState : State :=
  { version := 1, tasks := [wDoneTask], projects := [],
    settings := defaultSettings,
    completionHistory := computeCompletionHistory [wDoneTask],
    lastDeletedTask := none }

/-- A state holding one todo task, with a consistent derived history. -/
def consistentState : State :=
  { version := 1, tasks := [wTodoTask], projects := [],
    settings := defaultSettings,
    completionHistory := computeCompletionHistory [wTodoTask],
    lastDeletedTask := none }

/-- A state whose one-slot undo buffer currently holds a task. -/
def undoHeldState : State :=
  { emptyState with lastDeletedTask := some wDoneTask }

/-- A state whose stored completion history is not the one derived from its
(empty) task list. -/
def staleHistoryState : State :=
  { emptyState with
    completionHistory := [{ date := "2020-01-01", count := 1 }] }

/-- `wDoneTask` after `bulk-update-status(["t1"], "todo")`: status reverted,
`updatedAt` refreshed, but the stale `completedAt` stamp still present. -/
def wRevertedTask : Task :=
  { wDoneTask with
    status := .todo
    updatedAt := "2024-01-02T00:00:00.000Z" }

/-- The `completedAt != null ⇔ status == done` invariant of the spec's data
model.  -/
def taskInvariant (t : Task) : Prop :=
  t.completedAt ≠ none ↔ t.status = .done

instance (t : Task) : Decidable (taskInvariant t) := by
  unfold taskInvariant
  infer_instance

/-! ## Predicates and auxiliary definitions for the claims -/

/-- A parsed top-level value of the right shape: a JSON object map (arrays,
though they pass the source's `isObject` check, are the claim's canonical
"wrong top-level shape"). -/
def Json.isObjMap : Json → Bool
  | .obj _ => true
  | _ => false

/-- The bad stored inputs of C5: missing key or unparseable text (both
modelled by `none`), or a parsed value whose top-level shape is not an
object map (such as `"[]"`). -/
def badStoredInput (stored : Option Json) : Prop :=
  stored = none ∨ ∃ v, stored = some v ∧ v.isObjMap = false

/-- The shape contract of the initial state: valid (current) version,
collections empty or the first-run defaults, settings the field-by-field
safe defaults or the first-run defaults. -/
def initialShapeContract (now : String) (s : PersistedStateJ) : Prop :=
  s.version = CURRENT_VERSION ∧
  (s.tasks = [] ∨ s.tasks = (toJ (getInitialState now)).tasks) ∧
  (s.projects = [] ∨ s.projects = (toJ (getInitialState now)).projects) ∧
  s.completionHistory = [] ∧
  (s.settings = defaultSettings ∨ s.settings = (getInitialState now).settings)

/-- `byDate.get(k) ?? 0` on the association-list map. -/
def cnt (m : List (String × Nat)) (k : String) : Nat :=
  ((m.find? (fun p => decide (p.1 = k))).map Prod.snd).getD 0


/-! ## Unfolding lemmas for the analytics summary fields -/

lemma completionRate_def (dayKeys : Nat → String) (tasks : List Task)
    (history : List CompletionEntry) :
    (computeAnalytics dayKeys tasks history).completionRate =
      if tasks.length = 0 then 0
      else ((tasks.filter (fun t => decide (t.status = .done))).length : ℚ) /
        (tasks.length : ℚ) := rfl

lemma completedTasks_def (dayKeys : Nat → String) (tasks : List Task)
    (history : List CompletionEntry) :
    (computeAnalytics dayKeys tasks history).completedTasks =
      (tasks.filter (fun t => decide (t.status = .done))).length := rfl

lemma totalTasks_def (dayKeys : Nat → String) (tasks : List Task)
    (history : List CompletionEntry) :
    (computeAnalytics dayKeys tasks history).totalTasks = tasks.length := rfl

lemma streakDays_def (dayKeys : Nat → String) (tasks : List Task)
    (history : List CompletionEntry) :
    (computeAnalytics dayKeys tasks history).streakDays =
      streakFrom (hasCompletionAt dayKeys history tasks) 0 365 := rfl

lemma tasksCompletedToday_def (dayKeys : Nat → String) (tasks : List Task)
    (history : List CompletionEntry) :
    (computeAnalytics dayKeys tasks history).tasksCompletedToday =
      match history.find? (fun e => decide (e.date = dayKeys 0)) with
      | some e => e.count
      | none => countCompletedOn tasks (dayKeys 0) := rfl

/-! ## Streak loop lemmas -/

lemma streakFrom_le (f : Nat → Bool) : ∀ (fuel off : Nat),
    streakFrom f off fuel ≤ fuel := by
  intro fuel
  induction fuel with
  | zero => intro off; simp [streakFrom]
  | succ n ih =>
      intro off
      simp only [streakFrom]
      by_cases h : f off
      · rw [if_pos h]
        exact Nat.succ_le_succ (ih (off + 1))
      · rw [if_neg h]
        exact Nat.zero_le _

lemma streakFrom_true (f : Nat → Bool) : ∀ (fuel off i : Nat),
    i < streakFrom f off fuel → f (off + i) = true := by
  intro fuel
  induction fuel with
  | zero => intro off i h; simp [streakFrom] at h
  | succ n ih =>
      intro off i h
      simp only [streakFrom] at h
      by_cases hf : f off
      · rw [if_pos hf] at h
        cases i with
        | zero => simpa using hf
        | succ j =>
            have hj : j < streakFrom f (off + 1) n := by omega
            have := ih (off + 1) j hj
            rw [show off + (j + 1) = off + 1 + j by omega]
            exact this
      · rw [if_neg hf] at h
        omega

lemma streakFrom_stop (f : Nat → Bool) : ∀ (fuel off : Nat),
    streakFrom f off fuel < fuel → f (off + streakFrom f off fuel) = false := by
  intro fuel
  induction fuel with
  | zero => intro off h; omega
  | succ n ih =>
      intro off h
      simp only [streakFrom] at h ⊢
      by_cases hf : f off
      · rw [if_pos hf] at h ⊢
        have hlt : streakFrom f (off + 1) n < n := by omega
        have := ih (off + 1) hlt
        rw [show off + (streakFrom f (off + 1) n + 1) =
              off + 1 + streakFrom f (off + 1) n by omega]
        exact this
      · rw [if_neg hf]
        simpa using hf

/-- C10. For every task list T and history, `computeAnalytics` yields a
`completionRate` in [0, 1] (in particular finite, the division-by-zero case
being guarded); it equals `completedTasks / totalTasks` when T is non-empty
and 0 when T is empty. -/
theorem claim_C10_completion_rate_bounds (dayKeys : Nat → String)
    (tasks : List Task) (history : List CompletionEntry) :
    0 ≤ (computeAnalytics dayKeys tasks history).completionRate ∧
    (computeAnalytics dayKeys tasks history).completionRate ≤ 1 ∧
    (tasks = [] → (computeAnalytics dayKeys tasks history).completionRate = 0) ∧
    (tasks ≠ [] →
      (computeAnalytics dayKeys tasks history).completionRate =
        ((computeAnalytics dayKeys tasks history).completedTasks : ℚ) /
          ((computeAnalytics dayKeys tasks history).totalTasks : ℚ)) := by
  rw [completionRate_def, completedTasks_def, totalTasks_def]
  by_cases h0 : tasks.length = 0
  · rw [if_pos h0]
    refine ⟨le_refl 0, zero_le_one, fun _ => rfl, fun hne => absurd ?_ hne⟩
    exact List.length_eq_zero.mp h0
  · rw [if_neg h0]
    have hpos : (0 : ℚ) < (tasks.length : ℚ) := by
      exact_mod_cast Nat.pos_of_ne_zero h0
    have hle : (tasks.filter (fun t => decide (t.status = .done))).length ≤
        tasks.length := List.length_filter_le _ _
    refine ⟨div_nonneg (by positivity) (le_of_lt hpos), ?_, ?_, fun _ => rfl⟩
    · rw [div_le_one hpos]
      exact_mod_cast hle
    · intro he
      rw [he] at h0
      simp at h0

/-- Closed-form instance of C10's conditional clauses at concrete inputs. -/
theorem claim_C10_witness :
    (computeAnalytics (fun _ => "2024-01-01") ([] : List Task) []).completionRate
      = 0 :=
  (claim_C10_completion_rate_bounds (fun _ => "2024-01-01") [] []).2.2.1 rfl

/-- C9. `streakDays` is the length of the maximal run of consecutive days,
starting at today (offset 0) and capped at 365, on which the day key is in
the completion-history set or some task's `completedAt` falls on that day;
it stops at the first day with no completion, and today having no completion
forces `streakDays = 0`. -/
theorem claim_C9_streak_characterisation (dayKeys : Nat → String)
    (tasks : List Task) (history : List CompletionEntry) :
    (computeAnalytics dayKeys tasks history).streakDays ≤ 365 ∧
    (∀ i, i < (computeAnalytics dayKeys tasks history).streakDays →
      hasCompletionAt dayKeys history tasks i = true) ∧
    ((computeAnalytics dayKeys tasks history).streakDays < 365 →
      hasCompletionAt dayKeys history tasks
        ((computeAnalytics dayKeys tasks history).streakDays) = false) ∧
    (hasCompletionAt dayKeys history tasks 0 = false →
      (computeAnalytics dayKeys tasks history).streakDays = 0) := by
  rw [streakDays_def]
  refine ⟨streakFrom_le _ 365 0, ?_, ?_, ?_⟩
  · intro i hi
    have := streakFrom_true (hasCompletionAt dayKeys history tasks) 365 0 i hi
    simpa using this
  · intro hlt
    have := streakFrom_stop (hasCompletionAt dayKeys history tasks) 365 0 hlt
    simpa using this
  · intro h0
    by_contra hne
    have hpos : 0 < streakFrom (hasCompletionAt dayKeys history tasks) 0 365 :=
      Nat.pos_of_ne_zero hne
    have := streakFrom_true (hasCompletionAt dayKeys history tasks) 365 0 0 hpos
    simp [h0] at this

/-- Closed-form instance of C9: with no tasks and no history, today has no
completion and the streak computed by the code is 0. -/
theorem claim_C9_witness :
    (computeAnalytics (fun _ => "2024-01-01") ([] : List Task) []).streakDays
      = 0 :=
  (claim_C9_streak_characterisation (fun _ => "2024-01-01") [] []).2.2.2
    (by decide)

/-! ## C7: bulk "done" idempotence -/

lemma bulkOne_done_completedAt_twice (ids : List String) (now₁ now₂ : String)
    (t : Task) :
    (bulkOne ids .done now₂ (bulkOne ids .done now₁ t)).completedAt =
      (bulkOne ids .done now₁ t).completedAt := by
  by_cases h : t.id ∈ ids
  · simp [bulkOne, h]
  · simp [bulkOne, h]

/-- C7. Running `bulk-update-status(ids, done)` twice leaves every task's
`completedAt` exactly as after the first run: only the first run stamps
`completedAt` (with its `now`) for tasks whose `completedAt` was null, and a
task whose `completedAt` is already set keeps it unchanged. -/
theorem claim_C7_bulk_done_idempotent (now₁ now₂ id₁ id₂ : String) (S : State)
    (ids : List String) :
    ((reducer now₂ id₂ (reducer now₁ id₁ S (.bulkUpdateStatus ids .done))
        (.bulkUpdateStatus ids .done)).tasks.map Task.completedAt =
      (reducer now₁ id₁ S
        (.bulkUpdateStatus ids .done)).tasks.map Task.completedAt) ∧
    (∀ t : Task, ∀ c : String, t.completedAt = some c →
      (bulkOne ids .done now₁ t).completedAt = some c) := by
  constructor
  · show ((S.tasks.map (bulkOne ids .done now₁)).map
        (bulkOne ids .done now₂)).map Task.completedAt =
      (S.tasks.map (bulkOne ids .done now₁)).map Task.completedAt
    rw [List.map_map, List.map_map, List.map_map]
    apply List.map_congr_left
    intro t _
    simp only [Function.comp]
    exact bulkOne_done_completedAt_twice ids now₁ now₂ t
  · intro t c hc
    by_cases h : t.id ∈ ids
    · simp [bulkOne, h, hc]
    · simp [bulkOne, h, hc]

/-- Closed-form instance of C7's second clause: an already-done task keeps its
`completedAt` when re-marked done. -/
theorem claim_C7_witness :
    (bulkOne ["t1"] .done "2024-01-02T00:00:00.000Z" wDoneTask).completedAt =
      some "2024-01-01T10:00:00.000Z" :=
  (claim_C7_bulk_done_idempotent "2024-01-02T00:00:00.000Z"
    "2024-01-03T00:00:00.000Z" "a" "b" emptyState ["t1"]).2 wDoneTask
    "2024-01-01T10:00:00.000Z" rfl

/-! ## C2: create-task with a title that trims to the empty string -/

/-- Refutation of C2 as stated: `create-task` on a whitespace-only title is
not a no-op — the reducer prepends a task anyway. -/
theorem claim_C2_counterexample :
    reducer "2024-01-01T00:00:00.000Z" "id1" emptyState
      (.createTask { title := "   ", description := none, projectId := none,
                     priority := none, dueDate := none }) ≠ emptyState := by
  decide

/-- C2 amended: for every create-task input whose title trims to the empty
string, the reducer still creates a task — the list grows by one and the new
front task carries the empty title (the non-empty-title validation lives in
the UI boundary, not the engine). -/
theorem claim_C2_amended_create_empty_title (now freshId : String) (S : State)
    (input : CreateTaskInput) (h : jsTrim input.title = "") :
    (reducer now freshId S (.createTask input)).tasks.length =
      S.tasks.length + 1 ∧
    ((reducer now freshId S (.createTask input)).tasks.head?.map Task.title) =
      some "" := by
  constructor
  · show (createdTask now freshId S input :: S.tasks).length =
      S.tasks.length + 1
    simp
  · show ((createdTask now freshId S input :: S.tasks).head?.map Task.title) =
      some ""
    simp [createdTask, h]

/-- Closed-form instance of C2 amended at a whitespace-only title. -/
theorem claim_C2_witness :
    jsTrim "   " = "" ∧
    (reducer "2024-01-01T00:00:00.000Z" "id1" emptyState
        (.createTask { title := "   ", description := none, projectId := none,
                       priority := none, dueDate := none })).tasks.length =
      emptyState.tasks.length + 1 :=
  ⟨by decide,
    (claim_C2_amended_create_empty_title "2024-01-01T00:00:00.000Z" "id1"
      emptyState
      { title := "   ", description := none, projectId := none,
        priority := none, dueDate := none } (by decide)).1⟩

/-! ## C6: update / delete on a nonexistent id -/

/-- Refutation of C6 as stated: deleting a nonexistent id is not a no-op on
the whole state — it overwrites the undo slot with `null`; and updating a
nonexistent id still replaces the stored completion history with the
recomputed one. -/
theorem claim_C6_counterexample :
    (reducer "2024-01-02T00:00:00.000Z" "f2" undoHeldState
      (.deleteTask "missing") ≠ undoHeldState) ∧
    (reducer "2024-01-02T00:00:00.000Z" "f2" staleHistoryState
      (.updateTask "missing" TaskPatch.empty) ≠ staleHistoryState) := by
  refine ⟨by decide, by decide⟩

/-- C6 amended: when the id matches no task and the stored completion history
is the one derived from the task list, `update-task` is a strict no-op, and
`delete-task` leaves tasks, history, settings and projects unchanged but
clears the undo slot (so it is a full no-op only when the slot was already
empty). -/
theorem claim_C6_amended_noop_on_missing_id (now freshId : String) (S : State)
    (id : String) (patch : TaskPatch)
    (hid : ∀ t ∈ S.tasks, t.id ≠ id)
    (hh : S.completionHistory = computeCompletionHistory S.tasks) :
    reducer now freshId S (.updateTask id patch) = S ∧
    reducer now freshId S (.deleteTask id) =
      { S with lastDeletedTask := none } := by
  have hmap : S.tasks.map
      (fun t => if t.id = id then applyPatch now t patch else t) = S.tasks := by
    have h1 := List.map_congr_left (l := S.tasks)
      (f := fun t => if t.id = id then applyPatch now t patch else t)
      (g := fun t => t) (fun t ht => by simp [hid t ht])
    simpa using h1
  have hfind : S.tasks.find? (fun t => decide (t.id = id)) = none := by
    rw [List.find?_eq_none]
    intro t ht
    simp [hid t ht]
  have hfilter : S.tasks.filter (fun t => decide (t.id ≠ id)) = S.tasks := by
    rw [List.filter_eq_self]
    intro t ht
    simp [hid t ht]
  constructor
  · have hred : reducer now freshId S (.updateTask id patch) =
        { S with
          tasks := S.tasks.map
            (fun t => if t.id = id then applyPatch now t patch else t)
          completionHistory := computeCompletionHistory (S.tasks.map
            (fun t => if t.id = id then applyPatch now t patch else t)) } := rfl
    rw [hred, hmap, ← hh]
  · have hred : reducer now freshId S (.deleteTask id) =
        { S with
          tasks := S.tasks.filter (fun t => decide (t.id ≠ id))
          completionHistory := computeCompletionHistory
            (S.tasks.filter (fun t => decide (t.id ≠ id)))
          lastDeletedTask := S.tasks.find? (fun t => decide (t.id = id)) } :=
      rfl
    rw [hred, hfilter, hfind, ← hh]

/-- Closed-form instance of C6 amended: updating a nonexistent id on a
history-consistent state returns the state unchanged. -/
theorem claim_C6_witness :
    reducer "2024-01-03T00:00:00.000Z" "f3" consistentState
      (.updateTask "zz" TaskPatch.empty) = consistentState :=
  (claim_C6_amended_noop_on_missing_id "2024-01-03T00:00:00.000Z" "f3"
    consistentState "zz" TaskPatch.empty (by decide) rfl).1

/-! ## C1: the completedAt/status invariant is not preserved -/

/-- C1 evaluated at the failing input: `invariantState` satisfies the
`completedAt ⇔ done` invariant on every task, yet `bulk-update-status` back
to `todo` leaves the stale `completedAt` stamp in place, so the resulting
state violates the invariant (the code never clears `completedAt`). -/
theorem claim_C1_code_eval :
    (∀ t ∈ invariantState.tasks, taskInvariant t) ∧
    (reducer "2024-01-02T00:00:00.000Z" "f1" invariantState
        (.bulkUpdateStatus ["t1"] .todo)).tasks = [wRevertedTask] ∧
    (∃ t ∈ (reducer "2024-01-02T00:00:00.000Z" "f1" invariantState
        (.bulkUpdateStatus ["t1"] .todo)).tasks, ¬ taskInvariant t) := by
  decide

/-! ## C3: the undo slot is serialised into the stored blob -/

/-- C3 evaluated on the code: the persist effect hands the full reducer
`State` to `saveState`, and `JSON.stringify` writes all six own properties —
the five `PersistedState` fields plus `lastDeletedTask` — for every state;
after a delete the slot holds the deleted task, so the undo task itself is
written into the blob. -/
theorem claim_C3_code_eval :
    (∀ s : State, (encodeStateJson s).topKeys =
      ["version", "tasks", "projects", "settings", "completionHistory",
       "lastDeletedTask"]) ∧
    (reducer "2024-01-02T00:00:00.000Z" "f1" invariantState
        (.deleteTask "t1")).lastDeletedTask = some wDoneTask := by
  constructor
  · intro s
    rfl
  · decide

/-! ## C4: save/load round trip -/

lemma coerceSettings_encode (s : AppSettings) :
    coerceSettings (some (encodeSettings s)) = s := by
  rcases s with ⟨dpi, c, e, o⟩
  cases dpi <;> rfl

lemma loadState_saveJ (now : String) (s : PersistedStateJ) :
    loadState now (some (saveStateJ s)) = s := by
  rcases s with ⟨v, ts, ps, ⟨dpi, c, e, o⟩, ch⟩
  cases dpi <;> rfl

/-- C4. Loading immediately after saving returns the saved state: for every
well-formed `PersistedState` (typed tasks, projects, settings with all
declared fields, integral version), `loadState` applied to the
`JSON.stringify` image that `saveState` writes yields exactly that state's
JSON image — i.e. a value deep-equal to the saved one. -/
theorem claim_C4_load_save_roundtrip (now : String) (P : PersistedState) :
    loadState now (some (saveStateJ (toJ P))) = toJ P :=
  loadState_saveJ now (toJ P)

/-! ## C5: corrupt-input tolerance of load -/

/-- C5. On every bad stored input — missing key, unparseable text, or a
parsed value of the wrong top-level shape — `loadState` (a total function,
so it cannot throw) returns a state satisfying the initial-state shape
contract: valid version and empty-or-default collections and settings. -/
theorem claim_C5_load_corrupt_tolerant (now : String) (stored : Option Json)
    (h : badStoredInput stored) :
    initialShapeContract now (loadState now stored) := by
  have hinit : initialShapeContract now (toJ (getInitialState now)) :=
    ⟨rfl, Or.inr rfl, Or.inr rfl, rfl, Or.inr rfl⟩
  rcases h with h | ⟨v, hv, hm⟩
  · rw [h]
    exact hinit
  · rw [hv]
    cases v with
    | obj fields => simp [Json.isObjMap] at hm
    | arr xs => exact ⟨rfl, Or.inl rfl, Or.inl rfl, rfl, Or.inl rfl⟩
    | null => exact hinit
    | bool b => exact hinit
    | num n => exact hinit
    | str s => exact hinit

/-- Closed-form instance of C5 at the stored value `"[]"`. -/
theorem claim_C5_witness :
    initialShapeContract "2024-01-01T00:00:00.000Z"
      (loadState "2024-01-01T00:00:00.000Z" (some (Json.arr []))) :=
  claim_C5_load_corrupt_tolerant "2024-01-01T00:00:00.000Z"
    (some (Json.arr [])) (Or.inr ⟨Json.arr [], rfl, rfl⟩)

/-! ## C8: the two paths for tasksCompletedToday agree

The grouped count stored for a day key equals the direct scan of the task
list for that key; hence the history-lookup path and the task-scan fallback
of `tasksCompletedToday` return the same value. -/

lemma cnt_cons_self (k : String) (c : Nat) (rest : List (String × Nat)) :
    cnt ((k, c) :: rest) k = c := by
  simp [cnt]

lemma cnt_cons_ne {k' k : String} (c : Nat) (rest : List (String × Nat))
    (h : k' ≠ k) : cnt ((k', c) :: rest) k = cnt rest k := by
  simp [cnt, List.find?_cons, h]

lemma cnt_bump_self (k : String) : ∀ m, cnt (bump m k) k = cnt m k + 1 := by
  intro m
  induction m with
  | nil => simp [bump, cnt]
  | cons p rest ih =>
      obtain ⟨k', c⟩ := p
      by_cases h : k' = k
      · subst h
        simp [bump, cnt_cons_self]
      · rw [show bump ((k', c) :: rest) k = (k', c) :: bump rest k by
            simp [bump, h]]
        rw [cnt_cons_ne c _ h, cnt_cons_ne c _ h]
        exact ih

lemma cnt_bump_ne {j k : String} (h : j ≠ k) :
    ∀ m, cnt (bump m j) k = cnt m k := by
  intro m
  induction m with
  | nil => simp [bump, cnt, h]
  | cons p rest ih =>
      obtain ⟨k', c⟩ := p
      by_cases h2 : k' = j
      · subst h2
        rw [show bump ((k', c) :: rest) k' = (k', c + 1) :: rest by
            simp [bump]]
        rw [cnt_cons_ne _ _ h, cnt_cons_ne _ _ h]
      · rw [show bump ((k', c) :: rest) j = (k', c) :: bump rest j by
            simp [bump, h2]]
        by_cases h3 : k' = k
        · subst h3
          rw [cnt_cons_self, cnt_cons_self]
        · rw [cnt_cons_ne _ _ h3, cnt_cons_ne _ _ h3]
          exact ih

lemma cnt_foldl (k : String) : ∀ (ts : List Task) (m : List (String × Nat)),
    cnt (ts.foldl histStep m) k = cnt m k + countCompletedOn ts k := by
  intro ts
  induction ts with
  | nil =>
      intro m
      simp [countCompletedOn]
  | cons t ts ih =>
      intro m
      rw [List.foldl_cons, ih (histStep m t)]
      cases hk : dayKeyOfCompleted t with
      | none =>
          simp [histStep, hk, countCompletedOn, List.filter_cons]
      | some j =>
          by_cases hj : j = k
          · subst hj
            simp [histStep, hk, cnt_bump_self, countCompletedOn,
              List.filter_cons]
            omega
          · simp [histStep, hk, cnt_bump_ne hj, countCompletedOn,
              List.filter_cons, hj]

lemma cnt_completionPairs (T : List Task) (k : String) :
    cnt (completionPairs T) k = countCompletedOn T k := by
  have h := cnt_foldl k T []
  simpa [completionPairs, cnt] using h

lemma mem_keys_bump : ∀ (m : List (String × Nat)) (x k : String),
    x ∈ (bump m k).map Prod.fst → x ∈ m.map Prod.fst ∨ x = k := by
  intro m
  induction m with
  | nil =>
      intro x k h
      simp [bump] at h
      right
      exact h
  | cons p rest ih =>
      obtain ⟨k', c⟩ := p
      intro x k h
      by_cases hk : k' = k
      · subst hk
        rw [show bump ((k', c) :: rest) k' = (k', c + 1) :: rest by
            simp [bump]] at h
        left
        simpa using h
      · rw [show bump ((k', c) :: rest) k = (k', c) :: bump rest k by
            simp [bump, hk]] at h
        rw [List.map_cons, List.mem_cons] at h
        rcases h with h | h
        · left
          simp [h]
        · rcases ih x k h with h2 | h2
          · left
            simp [h2]
          · right
            exact h2

lemma nodup_keys_bump : ∀ (m : List (String × Nat)) (k : String),
    (m.map Prod.fst).Nodup → ((bump m k).map Prod.fst).Nodup := by
  intro m
  induction m with
  | nil =>
      intro k _
      simp [bump]
  | cons p rest ih =>
      obtain ⟨k', c⟩ := p
      intro k hnd
      rw [List.map_cons, List.nodup_cons] at hnd
      obtain ⟨hni, hrest⟩ := hnd
      by_cases hk : k' = k
      · subst hk
        rw [show bump ((k', c) :: rest) k' = (k', c + 1) :: rest by
            simp [bump]]
        rw [List.map_cons, List.nodup_cons]
        exact ⟨hni, hrest⟩
      · rw [show bump ((k', c) :: rest) k = (k', c) :: bump rest k by
            simp [bump, hk]]
        rw [List.map_cons, List.nodup_cons]
        refine ⟨?_, ih k hrest⟩
        intro hmem
        rcases mem_keys_bump rest k' k hmem with h2 | h2
        · exact hni h2
        · exact hk h2

lemma nodup_keys_foldl : ∀ (ts : List Task) (m : List (String × Nat)),
    (m.map Prod.fst).Nodup → ((ts.foldl histStep m).map Prod.fst).Nodup := by
  intro ts
  induction ts with
  | nil => intro m h; simpa using h
  | cons t ts ih =>
      intro m h
      rw [List.foldl_cons]
      apply ih
      cases hk : dayKeyOfCompleted t with
      | none => simpa [histStep, hk] using h
      | some j =>
          rw [histStep, hk]
          exact nodup_keys_bump m j h

lemma nodup_keys_completionPairs (T : List Task) :
    ((completionPairs T).map Prod.fst).Nodup :=
  nodup_keys_foldl T [] (by simp)

lemma eq_of_mem_nodup_keys : ∀ (l : List (String × Nat)),
    (l.map Prod.fst).Nodup → ∀ a b, a ∈ l → b ∈ l → a.1 = b.1 → a = b := by
  intro l
  induction l with
  | nil =>
      intro _ a b ha
      simp at ha
  | cons p rest ih =>
      intro hnd a b ha hb hk
      rw [List.map_cons, List.nodup_cons] at hnd
      obtain ⟨hp, hrest⟩ := hnd
      rw [List.mem_cons] at ha hb
      rcases ha with ha | ha <;> rcases hb with hb | hb
      · rw [ha, hb]
      · exfalso
        apply hp
        rw [← ha, hk] at hp ⊢
        exact List.mem_map_of_mem Prod.fst hb
      · exfalso
        apply hp
        rw [← hb, ← hk] at hp ⊢
        exact List.mem_map_of_mem Prod.fst ha
      · exact ih hrest a b ha hb hk

lemma find?_completionHistory_count (T : List Task) (k : String) :
    ∀ e, (computeCompletionHistory T).find?
        (fun x => decide (x.date = k)) = some e →
      e.count = countCompletedOn T k := by
  intro e he
  rw [computeCompletionHistory, List.find?_map] at he
  obtain ⟨p, hp, hpe⟩ := Option.map_eq_some'.mp he
  have hp' : ((completionPairs T).insertionSort
      (fun a b => strLtB a.1 b.1 = true)).find?
      (fun q => decide (q.1 = k)) = some p := hp
  have hmem : p ∈ (completionPairs T).insertionSort
      (fun a b => strLtB a.1 b.1 = true) := List.mem_of_find?_eq_some hp'
  have hkey : p.1 = k := by
    have := List.find?_some hp'
    simpa using this
  have hperm := List.perm_insertionSort
    (fun (a b : String × Nat) => strLtB a.1 b.1 = true) (completionPairs T)
  have hmem2 : p ∈ completionPairs T := hperm.mem_iff.mp hmem
  have hsome : ((completionPairs T).find?
      (fun q => decide (q.1 = k))).isSome := by
    rw [List.find?_isSome]
    exact ⟨p, hmem2, by simpa using hkey⟩
  obtain ⟨p₀, hp₀⟩ := Option.isSome_iff_exists.mp hsome
  have hmem₀ : p₀ ∈ completionPairs T := List.mem_of_find?_eq_some hp₀
  have hkey₀ : p₀.1 = k := by
    have := List.find?_some hp₀
    simpa using this
  have hpp : p = p₀ :=
    eq_of_mem_nodup_keys (completionPairs T) (nodup_keys_completionPairs T)
      p p₀ hmem2 hmem₀ (by rw [hkey, hkey₀])
  have hcnt₀ : cnt (completionPairs T) k = p₀.2 := by
    simp [cnt, hp₀]
  have hcount : p₀.2 = countCompletedOn T k := by
    rw [← hcnt₀]
    exact cnt_completionPairs T k
  rw [← hpe]
  show p.2 = countCompletedOn T k
  rw [hpp]
  exact hcount

/-- C8. With `history = computeCompletionHistory(T)`, the two paths of
`tasksCompletedToday` agree: any history entry found for today's day key
carries exactly the number of tasks whose `completedAt` falls on that key,
so the lookup path and the direct-scan fallback yield the same value. -/
theorem claim_C8_today_paths_agree (dayKeys : Nat → String) (T : List Task) :
    (∀ e, (computeCompletionHistory T).find?
        (fun x => decide (x.date = dayKeys 0)) = some e →
      e.count = countCompletedOn T (dayKeys 0)) ∧
    (computeAnalytics dayKeys T
        (computeCompletionHistory T)).tasksCompletedToday =
      countCompletedOn T (dayKeys 0) := by
  refine ⟨find?_completionHistory_count T (dayKeys 0), ?_⟩
  rw [tasksCompletedToday_def]
  cases hf : (computeCompletionHistory T).find?
      (fun e => decide (e.date = dayKeys 0)) with
  | none => rfl
  | some e => exact find?_completionHistory_count T (dayKeys 0) e hf

/-- Closed-form instance of C8's lookup clause: the entry the grouped
history stores for the completed task's day carries the direct-scan count. -/
theorem claim_C8_witness :
    ({ date := "2024-01-01", count := 1 } : CompletionEntry).count =
      countCompletedOn [wDoneTask] "2024-01-01" :=
  (claim_C8_today_paths_agree (fun _ => "2024-01-01") [wDoneTask]).1
    { date := "2024-01-01", count := 1 } (by decide)

end FocusFlow
